import Mathlib

/-!
# Verification of the download_tg acquisition pipeline

A shallow embedding, in Lean 4, of the stateful core of the repository:

* the ephemeral YouTube request-token store (`handlers/youtube.py`),
* the progress-update rate limiter (`handlers/youtube.py`),
* the bounded retry loop of the Instagram orchestrator (`services/instagram.py`),
* the URL router (`handlers/base.py` with the patterns of `config.py`),
* the yt-dlp option builder (`services/downloader.py`),
* the media merge engine with its scoped temporary directory
  (`services/instagram.py`).

Conventions used throughout:

* Python `time.time()` values are modelled as rationals (`ℚ`), so the
  15-minute TTL and the 0.3-second rate limit are exact arithmetic.
* Python dicts keyed by strings are modelled as functions
  `String → Option _`; dict `pop` and assignment are pointwise updates.
* The filesystem is modelled as a record of existing files (path and size)
  and existing directories; external subprocesses (ffmpeg) are modelled by
  oracles describing their observable effect (exit code, file created).
-/

/-! ## Ephemeral request store (`handlers/youtube.py`, lines 15–37)

Python source:

```
_YT_REQUESTS: Dict[str, Dict[str, object]] = {}
_YT_REQUEST_TTL = 15 * 60

def _cleanup_requests() -> None:
    now = time.time()
    expired = [key for key, value in _YT_REQUESTS.items() if now - value["ts"] > _YT_REQUEST_TTL]
    for key in expired:
        _YT_REQUESTS.pop(key, None)

def _store_request(url: str, chat_id: int) -> str:
    _cleanup_requests()
    token = secrets.token_urlsafe(6)
    _YT_REQUESTS[token] = {"url": url, "chat_id": chat_id, "ts": time.time()}
    return token

def _pop_request(token: str, chat_id: int) -> Optional[str]:
    data = _YT_REQUESTS.pop(token, None)
    if not data or data.get("chat_id") != chat_id:
        return None
    return data.get("url")
```

The global dict becomes an explicit `Store` value threaded through the
operations; the freshly generated token and the clock readings become
explicit arguments.  Note that `_pop_request` reads no clock at all: its
embedding has no time argument.
-/

structure YtEntry where
  url : String
  chatId : Int
  ts : ℚ
deriving DecidableEq

def YtStore : Type := String → Option YtEntry

def YT_REQUEST_TTL : ℚ := 15 * 60

/-- `_cleanup_requests`: drop every entry whose age exceeds the TTL. -/
def cleanup_requests (now : ℚ) (s : YtStore) : YtStore :=
  fun k =>
    match s k with
    | some e => if now - e.ts > YT_REQUEST_TTL then none else some e
    | none => none

/-- `_store_request`: run the lazy expiry sweep, then insert the fresh
token (dict assignment overwrites any entry under the same key). -/
def store_request (url : String) (chatId : Int) (now : ℚ) (token : String)
    (s : YtStore) : YtStore :=
  let s1 := cleanup_requests now s
  fun k => if k = token then some ⟨url, chatId, now⟩ else s1 k

/-- `_pop_request`: `dict.pop` removes the entry unconditionally, and only
afterwards is the requester identity compared.  Returns the redeemed URL
(if any) together with the store left behind. -/
def pop_request (token : String) (chatId : Int) (s : YtStore) :
    Option String × YtStore :=
  let s1 : YtStore := fun k => if k = token then none else s k
  match s token with
  | none => (none, s1)
  | some e => (if e.chatId = chatId then some e.url else none, s1)

/-- The store operations available to any caller, for stating properties
over arbitrary interleavings. -/
inductive YtStoreOp where
  | putOp (url : String) (chatId : Int) (now : ℚ) (token : String)
  | takeOp (token : String) (chatId : Int)
  | sweepOp (now : ℚ)
deriving DecidableEq

def applyOp : YtStoreOp → YtStore → YtStore
  | .putOp url cid now token, s => store_request url cid now token s
  | .takeOp token cid, s => (pop_request token cid s).2
  | .sweepOp now, s => cleanup_requests now s

def applyOps (ops : List YtStoreOp) (s : YtStore) : YtStore :=
  ops.foldl (fun s op => applyOp op s) s

/-- An operation avoids `token` when it is not a put that (re)issues that
very token string. -/
def avoidsToken (token : String) : YtStoreOp → Bool
  | .putOp _ _ _ token1 => token1 ≠ token
  | _ => true

def emptyYtStore : YtStore := fun _ => none

/-! ### Store lemmas -/

theorem pop_request_removes (token : String) (chatId : Int) (s : YtStore) :
    (pop_request token chatId s).2 token = none := by
  unfold pop_request
  cases s token <;> simp

theorem cleanup_requests_none (now : ℚ) (s : YtStore) (token : String)
    (h : s token = none) : cleanup_requests now s token = none := by
  unfold cleanup_requests
  rw [h]

theorem applyOp_preserves_none (op : YtStoreOp) (s : YtStore) (token : String)
    (h : s token = none) (hop : avoidsToken token op = true) :
    applyOp op s token = none := by
  cases op with
  | putOp url cid now token1 =>
      simp only [avoidsToken, decide_eq_true_eq] at hop
      simp only [applyOp, store_request]
      rw [if_neg (fun hh => hop hh.symm)]
      exact cleanup_requests_none now s token h
  | takeOp token1 cid =>
      simp only [applyOp, pop_request]
      cases hst : s token1 <;> simp only []
      · by_cases hk : token = token1
        · simp [hk]
        · simp [hk, h]
      · by_cases hk : token = token1
        · simp [hk]
        · simp [hk, h]
  | sweepOp now =>
      exact cleanup_requests_none now s token h

theorem applyOps_preserves_none (ops : List YtStoreOp) (s : YtStore)
    (token : String) (h : s token = none)
    (hops : ops.all (avoidsToken token) = true) :
    applyOps ops s token = none := by
  induction ops generalizing s with
  | nil => exact h
  | cons op rest ih =>
      simp only [List.all_cons, Bool.and_eq_true] at hops
      exact ih (applyOp op s) (applyOp_preserves_none op s token h hops.1) hops.2

theorem pop_request_of_none (token : String) (chatId : Int) (s : YtStore)
    (h : s token = none) : (pop_request token chatId s).1 = none := by
  unfold pop_request
  rw [h]

/-! ### Claim C1 -/

/-- C1 (counterexample): the claim asserts that after a foreign-requester
`take`, the entry is still present and the legitimate owner can still
redeem it.  On the code this is false: `_pop_request` pops the dict entry
before checking the requester, so after chat 2 tries to redeem chat 1's
token, chat 1 gets `none` instead of the stored URL. -/
theorem c1_foreign_take_counterexample :
    let s0 := store_request "https://youtu.be/a" 1 0 "t" emptyYtStore
    let r1 := pop_request "t" 2 s0
    r1.1 = none ∧ (pop_request "t" 1 r1.2).1 ≠ some "https://youtu.be/a" := by
  constructor <;> decide

/-- C1 (amended): a foreign-requester `take` returns `none`, but it also
destroys the entry: the token is gone from the store and a subsequent
`take` by the legitimate owner returns `none` as well. -/
theorem c1_foreign_take_removes_entry (s : YtStore) (token : String)
    (uidA uidB : Int) (e : YtEntry) (hs : s token = some e)
    (hA : e.chatId = uidA) (hne : uidB ≠ uidA) :
    (pop_request token uidB s).1 = none ∧
    (pop_request token uidB s).2 token = none ∧
    (pop_request token uidA (pop_request token uidB s).2).1 = none := by
  refine ⟨?_, pop_request_removes token uidB s, ?_⟩
  · unfold pop_request
    rw [hs]
    simp only []
    rw [if_neg]
    rw [hA]
    exact fun h => hne h.symm
  · exact pop_request_of_none token uidA _ (pop_request_removes token uidB s)

/-- C1 (witness for the amended theorem). -/
theorem c1_foreign_take_removes_entry_witness :
    let s0 := store_request "u" (1 : Int) 0 "t" emptyYtStore
    (pop_request "t" 2 s0).1 = none ∧
    (pop_request "t" 2 s0).2 "t" = none ∧
    (pop_request "t" 1 (pop_request "t" 2 s0).2).1 = none :=
  c1_foreign_take_removes_entry _ "t" 1 2 ⟨"u", 1, 0⟩ (by decide) (by decide)
    (by decide)

/-! ### Claim C2 -/

/-- C2 (counterexample): the claim asserts a token created at time `T` is
never redeemable at `T + 16` minutes.  But `_pop_request` reads no clock
and runs no expiry sweep (the embedding therefore has no time argument):
with no intervening `put`, the owner's take — performed at any wall-clock
time, in particular 16 minutes after creation — still returns the URL. -/
theorem c2_ttl_counterexample :
    (pop_request "t" 1 (store_request "u" 1 0 "t" emptyYtStore)).1
      = some "u" := by
  decide

/-- C2 (amended): expiry is enforced only by the lazy sweep that runs at
the start of `_store_request`.  If any `put` (of a different fresh token)
runs at a time more than the 15-minute TTL after the token's creation,
then every later `take` of the expired token returns `none`, for every
requester. -/
theorem c2_expiry_after_put (s : YtStore) (token token1 url1 : String)
    (cid1 uid : Int) (now : ℚ) (e : YtEntry) (hs : s token = some e)
    (hexp : now - e.ts > YT_REQUEST_TTL) (hne : token1 ≠ token) :
    (pop_request token uid (store_request url1 cid1 now token1 s)).1
      = none := by
  apply pop_request_of_none
  simp only [store_request]
  rw [if_neg (fun h => hne h.symm)]
  unfold cleanup_requests
  rw [hs]
  simp [hexp]

/-- C2 (witness): token stored at `T = 0`; a put of a fresh token runs at
`T + 16` minutes (960 s > 900 s TTL); the owner's take then yields
`none`. -/
theorem c2_expiry_after_put_witness :
    let s0 := store_request "u" (1 : Int) 0 "t" emptyYtStore
    (pop_request "t" 1 (store_request "u2" 2 960 "t2" s0)).1 = none :=
  c2_expiry_after_put _ "t" "t2" "u2" 2 1 960 ⟨"u", 1, 0⟩ (by decide)
    (by norm_num [YT_REQUEST_TTL]) (by decide)

/-! ### Claim C3 -/

/-- C3: once `take(token, uid)` has succeeded, every subsequent `take` of
the same token returns `none`, whatever requester identity is supplied —
across any interleaving of further store operations, as long as the
(collision-resistant) token generator never reissues that token string. -/
theorem c3_single_use (s : YtStore) (token : String) (uid : Int)
    (url : String) (_hsucc : (pop_request token uid s).1 = some url)
    (ops : List YtStoreOp) (hops : ops.all (avoidsToken token) = true)
    (uid1 : Int) :
    (pop_request token uid1
      (applyOps ops (pop_request token uid s).2)).1 = none := by
  apply pop_request_of_none
  exact applyOps_preserves_none ops _ token
    (pop_request_removes token uid s) hops

/-- C3 (witness): chat 1 redeems its token; after an unrelated put, a
sweep and an unrelated take, redemption attempts by chat 1 and by chat 2
both return `none`. -/
theorem c3_single_use_witness :
    let s0 := store_request "u" (1 : Int) 0 "t" emptyYtStore
    let ops : List YtStoreOp :=
      [.putOp "u2" 2 5 "t2", .sweepOp 10, .takeOp "x" 3]
    (pop_request "t" 2 (applyOps ops (pop_request "t" 1 s0).2)).1 = none :=
  c3_single_use _ "t" 1 "u" (by decide)
    [.putOp "u2" 2 5 "t2", .sweepOp 10, .takeOp "x" 3] (by decide) 2

/-! ## Progress-update rate limiter (`handlers/youtube.py`, lines 96–123)

Python source (closure state of `handle_youtube_choice`):

```
last_update = 0.0
last_text = ""
last_downloaded = 0

async def _update_progress(text: str, downloaded: int) -> None:
    nonlocal last_update, last_text, last_downloaded
    now = time.time()
    if now - last_update < 0.3 or (text == last_text and downloaded == last_downloaded):
        return
    last_update = now
    last_text = text
    last_downloaded = downloaded
    try:
        await callback.message.edit_text(text)
    except Exception:
        pass
```

The closure state becomes `ProgressState`; one invocation becomes
`update_progress`, returning the new state and whether the UI edit was
emitted.  A whole download is a list of `(now, text, downloaded)`
invocations, folded by `run_progress`, which returns the emitted ones. -/

structure ProgressState where
  lastUpdate : ℚ
  lastText : String
  lastDownloaded : Int
deriving DecidableEq

def initialProgressState : ProgressState := ⟨0, "", 0⟩

structure ProgressEvent where
  now : ℚ
  text : String
  downloaded : Int
deriving DecidableEq

/-- `_update_progress`: suppress the edit when under 0.3 s have passed
since the last emitted update, or when the payload equals the last
emitted payload; otherwise record the event and emit. -/
def update_progress (now : ℚ) (text : String) (downloaded : Int)
    (s : ProgressState) : ProgressState × Bool :=
  if now - s.lastUpdate < 3/10 ∨
      (text = s.lastText ∧ downloaded = s.lastDownloaded) then
    (s, false)
  else
    (⟨now, text, downloaded⟩, true)

/-- The sequence of UI-facing updates actually emitted for a sequence of
invocations of `_update_progress`. -/
def run_progress : List ProgressEvent → ProgressState → List ProgressEvent
  | [], _ => []
  | e :: rest, s =>
    let r := update_progress e.now e.text e.downloaded s
    if r.2 then e :: run_progress rest r.1 else run_progress rest r.1

/-- The discipline the emitted stream obeys, relative to the previously
emitted record: each event is at least 0.3 s after it and differs from it
in payload, and the rest of the stream obeys the discipline relative to
that event. -/
def emittedChain : ℚ → String → Int → List ProgressEvent → Prop
  | _, _, _, [] => True
  | t, tx, d, e :: rest =>
    (e.now - t ≥ 3/10 ∧ ¬(e.text = tx ∧ e.downloaded = d)) ∧
      emittedChain e.now e.text e.downloaded rest

theorem run_progress_chain (events : List ProgressEvent)
    (s : ProgressState) :
    emittedChain s.lastUpdate s.lastText s.lastDownloaded
      (run_progress events s) := by
  induction events generalizing s with
  | nil => trivial
  | cons e rest ih =>
      by_cases hg : e.now - s.lastUpdate < 3/10 ∨
          (e.text = s.lastText ∧ e.downloaded = s.lastDownloaded)
      · have hup : update_progress e.now e.text e.downloaded s = (s, false) := by
          unfold update_progress
          exact if_pos hg
        simp only [run_progress, hup]
        exact ih s
      · have hup : update_progress e.now e.text e.downloaded s
            = (⟨e.now, e.text, e.downloaded⟩, true) := by
          unfold update_progress
          exact if_neg hg
        simp only [run_progress, hup]
        exact ⟨⟨le_of_not_lt fun hlt => hg (Or.inl hlt),
          fun hpair => hg (Or.inr hpair)⟩, ih ⟨e.now, e.text, e.downloaded⟩⟩

theorem emittedChain_pairs (l : List ProgressEvent) (t : ℚ) (tx : String)
    (d : Int) (h : emittedChain t tx d l) (i : Nat) (a b : ProgressEvent)
    (ha : l[i]? = some a) (hb : l[i + 1]? = some b) :
    b.now - a.now ≥ 3/10 ∧ ¬(b.text = a.text ∧ b.downloaded = a.downloaded) := by
  induction l generalizing t tx d i with
  | nil => simp at ha
  | cons e rest ih =>
      cases i with
      | zero =>
          simp only [List.getElem?_cons_zero, Option.some.injEq] at ha
          subst ha
          cases rest with
          | nil => simp at hb
          | cons e2 rest2 =>
              simp only [List.getElem?_cons_succ, List.getElem?_cons_zero,
                Option.some.injEq] at hb
              subst hb
              exact h.2.1
      | succ j =>
          simp only [List.getElem?_cons_succ] at ha hb
          exact ih e.now e.text e.downloaded h.2 j ha hb

/-! ### Claim C9 -/

/-- C9: for every sequence of progress invocations, any two consecutive
emitted UI updates are at least 0.3 s (300 ms) apart and never carry
identical payloads (status text and downloaded-byte count). -/
theorem c9_progress_rate_limit (events : List ProgressEvent) (i : Nat)
    (a b : ProgressEvent)
    (ha : (run_progress events initialProgressState)[i]? = some a)
    (hb : (run_progress events initialProgressState)[i + 1]? = some b) :
    b.now - a.now ≥ 3/10 ∧
    ¬(b.text = a.text ∧ b.downloaded = a.downloaded) :=
  emittedChain_pairs _ _ _ _
    (run_progress_chain events initialProgressState) i a b ha hb

/-- C9 (witness): two invocations 1 s apart with different payloads are
both emitted, and the theorem instantiates on them. -/
theorem c9_progress_rate_limit_witness :
    (⟨1001, "50%", 2⟩ : ProgressEvent).now
        - (⟨1000, "25%", 1⟩ : ProgressEvent).now ≥ 3/10 ∧
    ¬((⟨1001, "50%", 2⟩ : ProgressEvent).text
          = (⟨1000, "25%", 1⟩ : ProgressEvent).text ∧
      (⟨1001, "50%", 2⟩ : ProgressEvent).downloaded
          = (⟨1000, "25%", 1⟩ : ProgressEvent).downloaded) := by
  have hrun : run_progress
      [⟨1000, "25%", 1⟩, ⟨1001, "50%", 2⟩] initialProgressState
      = [⟨1000, "25%", 1⟩, ⟨1001, "50%", 2⟩] := by
    norm_num [run_progress, update_progress, initialProgressState]
  exact c9_progress_rate_limit
    [⟨1000, "25%", 1⟩, ⟨1001, "50%", 2⟩] 0 ⟨1000, "25%", 1⟩ ⟨1001, "50%", 2⟩
    (by rw [hrun]; rfl) (by rw [hrun]; rfl)

/-! ## Bounded retry loop (`services/instagram.py`, lines 368–393)

Python source:

```
async def _download_content_raw(self, url):
    for attempt in range(MAX_RETRIES):
        try:
            if self.use_api:
                result = await self._download_via_api(url)
                if not result[0]:
                    result = await self._download_via_instaloader(url)
            else:
                result = await self._download_via_instaloader(url)

            if result[0]:
                return result

            if attempt == MAX_RETRIES - 1:
                return result

            await asyncio.sleep(2 ** attempt)

        except Exception as e:
            logger.error(...)
            if attempt == MAX_RETRIES - 1:
                return [], f"Failed after {MAX_RETRIES} attempts: {str(e)}"
            await asyncio.sleep(2 ** attempt)

    return [], "Unknown error occurred"
```

The two strategies are external collaborators; each is modelled as an
oracle from the attempt number to its outcome (a `(files, status)` pair,
or a raised exception).  The embedding additionally records, as a trace,
the number of strategy invocations performed and the seconds slept
between consecutive attempts. -/

/-- `MAX_RETRIES` from `config.py`. -/
def MAX_RETRIES : Nat := 2

inductive StratResult where
  | ok (files : List String) (status : String)
  | raises (msg : String)
deriving DecidableEq

structure RawTrace where
  files : List String
  status : String
  sleeps : List Nat
  attempts : Nat
deriving DecidableEq

/-- The body of one attempt: with `use_api` the API strategy runs first
and Instaloader is tried only when the API produced no files; an API
exception propagates without the fallback.  Without `use_api` only
Instaloader runs. -/
def download_attempt_body (useApi : Bool) (api insta : Nat → StratResult)
    (attempt : Nat) : StratResult :=
  if useApi then
    match api attempt with
    | .raises m => .raises m
    | .ok files status =>
        if files = [] then insta attempt else .ok files status
  else insta attempt

/-- The `for attempt in range(MAX_RETRIES)` loop, by recursion on the
number of remaining iterations. -/
def download_content_raw_loop (strat : Nat → StratResult) :
    Nat → Nat → RawTrace
  | 0, _ => ⟨[], "Unknown error occurred", [], 0⟩
  | remaining + 1, attempt =>
    match strat attempt with
    | .ok files status =>
        if files ≠ [] then ⟨files, status, [], 1⟩
        else if attempt = MAX_RETRIES - 1 then ⟨files, status, [], 1⟩
        else
          let t := download_content_raw_loop strat remaining (attempt + 1)
          ⟨t.files, t.status, 2 ^ attempt :: t.sleeps, t.attempts + 1⟩
    | .raises msg =>
        if attempt = MAX_RETRIES - 1 then
          ⟨[], "Failed after " ++ toString MAX_RETRIES ++ " attempts: "
              ++ msg, [], 1⟩
        else
          let t := download_content_raw_loop strat remaining (attempt + 1)
          ⟨t.files, t.status, 2 ^ attempt :: t.sleeps, t.attempts + 1⟩

def download_content_raw (strat : Nat → StratResult) : RawTrace :=
  download_content_raw_loop strat MAX_RETRIES 0

/-! ### Claim C4 -/

/-- C4: when the strategy raises on every attempt, `_download_content_raw`
invokes it exactly `MAX_RETRIES = 2` times, sleeps `2 ^ attempt` seconds
between the consecutive attempts (here `2 ^ 0 = 1` second between attempt
0 and attempt 1), and returns the structured failure — an empty media
list with an error message — instead of letting the exception escape. -/
theorem c4_retry_bound (useApi : Bool) (api insta : Nat → StratResult)
    (msg : String)
    (h : ∀ n, download_attempt_body useApi api insta n = .raises msg) :
    download_content_raw (download_attempt_body useApi api insta)
      = ⟨[], "Failed after 2 attempts: " ++ msg, [1], 2⟩ := by
  unfold download_content_raw
  show download_content_raw_loop _ 2 0 = _
  unfold download_content_raw_loop
  rw [h 0]
  simp only [MAX_RETRIES]
  norm_num
  unfold download_content_raw_loop
  rw [h 1]
  simp only [MAX_RETRIES]
  norm_num
  rfl

/-- C4 (witness): an always-raising Instaloader strategy (API disabled)
produces exactly two attempts, a single 1-second sleep, and the
structured failure message. -/
theorem c4_retry_bound_witness :
    download_content_raw
        (download_attempt_body false (fun _ => .raises "api down")
          (fun _ => .raises "boom"))
      = ⟨[], "Failed after 2 attempts: boom", [1], 2⟩ :=
  c4_retry_bound false _ _ "boom" (fun _ => rfl)

/-! ## URL router (`handlers/base.py`, lines 31–91; `config.py`, lines 33–58)

Every regex in `PLATFORMS` is an alternation of escaped literals, so
`re.search(pattern, url, re.IGNORECASE)` is exactly: some literal is a
substring of the lower-cased URL.  The plain `'vk.com' in url` checks are
case-sensitive substring tests.  Substring matching is implemented from
scratch on character lists so that everything evaluates in the kernel. -/

/-- Is `pat` a prefix of the second list? -/
def strStarts : List Char → List Char → Bool
  | [], _ => true
  | _ :: _, [] => false
  | a :: as, b :: bs => a == b && strStarts as bs

/-- Does `pat` occur as a contiguous substring? -/
def strHasAux (pat : List Char) : List Char → Bool
  | [] => strStarts pat []
  | c :: rest => strStarts pat (c :: rest) || strHasAux pat rest

/-- Python `sub in s` (case-sensitive substring test). -/
def containsSub (sub s : String) : Bool := strHasAux sub.toList s.toList

/-- ASCII lower-casing of a URL, character by character (the effect of
`re.IGNORECASE` on literal-alternation patterns). -/
def lowerStr (s : String) : String := String.mk (s.toList.map Char.toLower)

/-- `re.search` of an alternation-of-literals pattern with
`re.IGNORECASE`: some (lower-case) literal occurs in the lower-cased
subject. -/
def reSearchLits (lits : List String) (url : String) : Bool :=
  lits.any (fun l => containsSub l (lowerStr url))

/-- `config.PLATFORMS`, in insertion order, each regex decomposed into its
alternation of literals. -/
def PLATFORMS : List (String × List String) :=
  [("yandex_zen", ["zen.yandex.ru", "dzen.ru"]),
   ("youtube", ["youtube.com", "youtu.be"]),
   ("instagram", ["instagram.com"]),
   ("tiktok", ["tiktok.com", "vm.tiktok.com"]),
   ("twitter", ["x.com", "twitter.com"]),
   ("vk", ["vk.com", "vkvideo.ru"]),
   ("reddit", ["reddit.com", "packaged-media.redd.it"])]

/-- `config.TWITTER_PATTERNS`. -/
def TWITTER_PATTERNS : List String := ["/status/", "x.com/", "twitter.com/"]

/-- The inline VK video/clip markers of `handle_links` (lines 52–60). -/
def vkVideoMarkers : List String :=
  ["/video", "/clip", "video_ext.php", "vkvideo.ru/video-", "vkvideo.ru/clip-"]

/-- The inline VK wall-post markers of `handle_links` (line 62). -/
def vkPostMarkers : List String := ["wall-", "?w=wall", "?z=wall"]

/-- Which handler a message's URL is dispatched to. -/
inductive Route where
  | youtube
  | instagram
  | vkVideo
  | vkPost
  | vkClarify
  | twitter
  | otherPlatform (name : String)
  | unsupported
deriving DecidableEq

/-- The final `for platform, pattern in PLATFORMS.items()` loop of
`handle_links`: `vk` and `twitter` are skipped (`continue`), the first
remaining pattern that matches wins. -/
def platformScanLoop : List (String × List String) → String → Route
  | [], _ => .unsupported
  | (name, lits) :: rest, url =>
    if ["vk", "twitter"].contains name then platformScanLoop rest url
    else if reSearchLits lits url then .otherPlatform name
    else platformScanLoop rest url

/-- `handle_links` (the routing decision only; replies and downloads are
the external delivery collaborator). -/
def handle_links (url : String) : Route :=
  if reSearchLits ["youtube.com", "youtu.be"] url then .youtube
  else if reSearchLits ["instagram.com"] url then .instagram
  else if containsSub "vk.com" url || containsSub "vkvideo.ru" url then
    if vkVideoMarkers.any (fun p => containsSub p url) then .vkVideo
    else if vkPostMarkers.any (fun p => containsSub p url) then .vkPost
    else .vkClarify
  else if reSearchLits ["x.com", "twitter.com"] url
      && TWITTER_PATTERNS.any (fun p => containsSub p url) then .twitter
  else platformScanLoop PLATFORMS url

/-- Modelled from the spec words for the final tier: the remaining
configured platforms (all but the two already handled) are tested in
configuration order and the first match wins. -/
def remainingPlatformScan (url : String) : Route :=
  match (PLATFORMS.filter
      (fun p => !(["vk", "twitter"].contains p.1))).find?
      (fun p => reSearchLits p.2 url) with
  | some p => Route.otherPlatform p.1
  | none => Route.unsupported

theorem platformScanLoop_filter (url : String)
    (l : List (String × List String)) :
    platformScanLoop l url =
      (match (l.filter (fun p => !(["vk", "twitter"].contains p.1))).find?
          (fun p => reSearchLits p.2 url) with
       | some p => Route.otherPlatform p.1
       | none => Route.unsupported) := by
  induction l with
  | nil => rfl
  | cons p rest ih =>
      obtain ⟨name, lits⟩ := p
      by_cases hskip : (["vk", "twitter"].contains name) = true
      · simp only [platformScanLoop, List.filter_cons, hskip, Bool.not_true,
          Bool.false_eq_true, if_false, eq_self_iff_true, if_true, ih]
      · rw [Bool.not_eq_true] at hskip
        by_cases hmatch : reSearchLits lits url = true
        · simp only [platformScanLoop, List.filter_cons, hskip, hmatch,
            Bool.not_false, Bool.false_eq_true, if_false, eq_self_iff_true,
            if_true, List.find?_cons_of_pos]
        · rw [Bool.not_eq_true] at hmatch
          have hf : List.find? (fun p => reSearchLits p.2 url)
              ((name, lits) :: List.filter
                (fun p => !(["vk", "twitter"].contains p.1)) rest)
              = List.find? (fun p => reSearchLits p.2 url)
                (List.filter (fun p => !(["vk", "twitter"].contains p.1))
                  rest) := by
            simp [List.find?, hmatch]
          simp only [platformScanLoop, List.filter_cons, hskip, hmatch,
            Bool.not_false, Bool.false_eq_true, if_false, eq_self_iff_true,
            if_true, hf, ih]

/-! ### Claim C5 -/

/-- C5 (counterexample): the claim puts the micro-blogging tier (Twitter/X
with a content-path marker) before the social-network tier (VK).  The code
checks the VK domains first, with a plain substring test, so a URL that
matches the Twitter pattern and carries the `/status/` marker while also
containing `vk.com` is routed to the VK branch (here its clarification
fallback), not to the Twitter handler. -/
theorem c5_precedence_counterexample :
    reSearchLits ["x.com", "twitter.com"]
        "https://twitter.com/a/status/1?from=vk.com" = true ∧
    TWITTER_PATTERNS.any
        (fun p => containsSub p "https://twitter.com/a/status/1?from=vk.com")
      = true ∧
    (containsSub "vk.com" "https://twitter.com/a/status/1?from=vk.com" ||
        containsSub "vkvideo.ru" "https://twitter.com/a/status/1?from=vk.com")
      = true ∧
    handle_links "https://twitter.com/a/status/1?from=vk.com"
      ≠ Route.twitter ∧
    handle_links "https://twitter.com/a/status/1?from=vk.com"
      = Route.vkClarify := by
  refine ⟨by decide, by decide, by decide, by decide, by decide⟩

/-- C5 (amended): classification is priority-ordered with first match
winning, but the social-network tier precedes the micro-blogging tier:
(1) YouTube, (2) Instagram, (3) the VK domains — disambiguated by path
markers into video/clip vs wall-post with a clarification fallback —,
(4) Twitter/X matched only together with a content-path marker, (5) the
remaining configured platforms in order.  In particular a URL matching
both the Twitter pattern-with-marker and a VK domain takes the VK route. -/
theorem c5_amended_precedence (url : String) :
    (reSearchLits ["youtube.com", "youtu.be"] url = true →
      handle_links url = .youtube) ∧
    (reSearchLits ["youtube.com", "youtu.be"] url = false →
      reSearchLits ["instagram.com"] url = true →
      handle_links url = .instagram) ∧
    (reSearchLits ["youtube.com", "youtu.be"] url = false →
      reSearchLits ["instagram.com"] url = false →
      (containsSub "vk.com" url || containsSub "vkvideo.ru" url) = true →
      handle_links url =
        (if vkVideoMarkers.any (fun p => containsSub p url) then .vkVideo
         else if vkPostMarkers.any (fun p => containsSub p url) then .vkPost
         else .vkClarify)) ∧
    (reSearchLits ["youtube.com", "youtu.be"] url = false →
      reSearchLits ["instagram.com"] url = false →
      (containsSub "vk.com" url || containsSub "vkvideo.ru" url) = false →
      (reSearchLits ["x.com", "twitter.com"] url
          && TWITTER_PATTERNS.any (fun p => containsSub p url)) = true →
      handle_links url = .twitter) ∧
    (reSearchLits ["youtube.com", "youtu.be"] url = false →
      reSearchLits ["instagram.com"] url = false →
      (containsSub "vk.com" url || containsSub "vkvideo.ru" url) = false →
      (reSearchLits ["x.com", "twitter.com"] url
          && TWITTER_PATTERNS.any (fun p => containsSub p url)) = false →
      handle_links url = remainingPlatformScan url) := by
  refine ⟨?_, ?_, ?_, ?_, ?_⟩
  · intro h1
    simp [handle_links, h1]
  · intro h1 h2
    simp [handle_links, h1, h2]
  · intro h1 h2 h3
    simp [handle_links, h1, h2, h3]
  · intro h1 h2 h3 h4
    simp [handle_links, h1, h2, h3, h4]
  · intro h1 h2 h3 h4
    simp only [handle_links, h1, Bool.false_eq_true, if_false, h2, h3, h4]
    exact platformScanLoop_filter url PLATFORMS

/-- C5 (witness for the amended theorem): on the URL that matches both
the Twitter tier and the VK domains, the amended tier 3 applies and
yields the VK clarification fallback. -/
theorem c5_amended_precedence_witness :
    handle_links "https://twitter.com/a/status/1?from=vk.com"
      = Route.vkClarify :=
  ((c5_amended_precedence "https://twitter.com/a/status/1?from=vk.com").2.2.1
    (by decide) (by decide) (by decide)).trans (by decide)

/-! ## yt-dlp option builder (`services/downloader.py`, lines 22–104)

`get_ydl_opts` as written has an unconditional `return` at function level
right after the YouTube branch, and inside the YouTube branch the
`return ... (audio_opts)` sits *outside* the `if youtube_audio_only:`
guard.  The Instagram and Twitter branches that follow the unconditional
return are dead code (they are also mis-indented in the source).  The
embedding mirrors this control flow exactly; the YouTube non-audio path
therefore raises (`audio_opts` is an unbound local), modelled as
`Except.error`.

Two pieces of environment feed the result:
* `YTDLP_JS_RUNTIMES` (read by `_apply_js_runtimes`), passed as `jsEnv`;
* `YTDLP_REMOTE_COMPONENTS` (read by `_apply_remote_components`).  This
  name is imported from `config.py` but never defined there; its intended
  (truthy-or-not) value is modelled as an `Option String` parameter. -/

structure YdlPostprocessor where
  key : String
  preferredcodec : String
  preferredquality : String
deriving DecidableEq

/-- The option keys of the dicts built by `get_ydl_opts` that any branch
ever sets.  `mergeOutputFormat`, `format`, `jsRuntimes` and
`remoteComponents` are `Option`s because the corresponding keys may be
absent from the Python dict; `twitterExtractorArgs` records the presence
of the dead Twitter branch's `extractor_args` key. -/
structure YdlOpts where
  outtmpl : String
  quiet : Bool
  noWarnings : Bool
  retries : Nat
  mergeOutputFormat : Option String
  format : Option String
  postprocessors : List YdlPostprocessor
  twitterExtractorArgs : Bool
  jsRuntimes : Option (List (String × Option String))
  remoteComponents : Option String
deriving DecidableEq

/-- `base_opts` of `get_ydl_opts`. -/
def baseYdlOpts : YdlOpts :=
  { outtmpl := "downloads/%(title)s.%(ext)s"
    quiet := false
    noWarnings := false
    retries := 3
    mergeOutputFormat := some "mp4"
    format := none
    postprocessors := []
    twitterExtractorArgs := false
    jsRuntimes := none
    remoteComponents := none }

/-- Python dict assignment on the runtimes dict: replace in place or
append. -/
def setRuntime (k : String) (v : Option String) :
    List (String × Option String) → List (String × Option String)
  | [] => [(k, v)]
  | (k1, v1) :: rest =>
      if k1 = k then (k, v) :: rest else (k1, v1) :: setRuntime k v rest

/-- `str.partition(':')`: the part before the first colon and the part
after it (empty when there is no colon). -/
def partitionColon (s : String) : String × String :=
  let cs := s.toList
  let pre := cs.takeWhile (fun c => c != ':')
  (String.mk pre, String.mk (cs.drop (pre.length + 1)))

/-- One iteration of the runtime-parsing loop of `_apply_js_runtimes`. -/
def parseRuntimeEntry (runtimes : List (String × Option String))
    (entry : String) : List (String × Option String) :=
  let np := partitionColon entry
  let name1 := lowerStr np.1.trim
  let name := if name1 = "nodejs" then "node" else name1
  if name = "" then runtimes
  else if np.2 ≠ "" then setRuntime name (some np.2) runtimes
  else setRuntime name none runtimes

/-- The `YTDLP_JS_RUNTIMES` environment parser of `_apply_js_runtimes`:
`none` when the (stripped) variable is empty, otherwise the runtimes
dict. -/
def parseJsRuntimes (env : String) : Option (List (String × Option String)) :=
  let stripped := env.trim
  if stripped = "" then none
  else
    some ((((stripped.splitOn ",").filter (fun r => r.trim != "")).map
      (fun r => r.trim)).foldl parseRuntimeEntry [])

/-- `_apply_js_runtimes`. -/
def apply_js_runtimes (jsEnv : String) (opts : YdlOpts) : YdlOpts :=
  match parseJsRuntimes jsEnv with
  | none => opts
  | some rs => { opts with jsRuntimes := some rs }

/-- `_apply_remote_components` (`YTDLP_REMOTE_COMPONENTS` modelled as an
optional value, `none` for falsy). -/
def apply_remote_components (remoteCfg : Option String) (opts : YdlOpts) :
    YdlOpts :=
  match remoteCfg with
  | none => opts
  | some c => { opts with remoteComponents := some c }

/-- `_youtube_format` (lines 45–58).  Python `if target_height:` treats
both `None` and `0` as falsy.  The string is assembled exactly as the
four concatenated f-string lines of the source (right-nested so that the
leading literal is syntactically first). -/
def youtube_format : Option Nat → String
  | some h =>
      if h = 0 then
        "bv*[vcodec^=avc1][ext=mp4]+ba[acodec^=mp4a]/bv*[ext=mp4]+ba/bv*+ba/b"
      else
        "bv*[height=" ++ (toString h
          ++ ("][vcodec^=avc1][ext=mp4]+ba[acodec^=mp4a]"
          ++ ("/bv*[height=" ++ (toString h ++ ("][ext=mp4]+ba"
          ++ ("/bv*[height=" ++ (toString h ++ ("]+ba"
          ++ ("/b[height=" ++ (toString h ++ "]/b"))))))))))
  | none =>
      "bv*[vcodec^=avc1][ext=mp4]+ba[acodec^=mp4a]/bv*[ext=mp4]+ba/bv*+ba/b"

/-- `get_ydl_opts`, exactly as its control flow stands in the source:
YouTube + audio-only returns the audio options; YouTube + video reaches
`return ...(audio_opts)` with `audio_opts` unbound (a `NameError`);
every other URL takes the unconditional function-level return that pairs
`base_opts` with the YouTube tiered format selector. -/
def get_ydl_opts (jsEnv : String) (remoteCfg : Option String) (url : String)
    (youtubeTargetHeight : Option Nat) (youtubeAudioOnly : Bool) :
    Except String YdlOpts :=
  if reSearchLits ["youtube.com", "youtu.be"] url then
    if youtubeAudioOnly then
      let audioOpts : YdlOpts :=
        { baseYdlOpts with
            format := some "bestaudio[ext=m4a]/bestaudio"
            postprocessors := [⟨"FFmpegExtractAudio", "mp3", "192"⟩]
            mergeOutputFormat := none }
      .ok (apply_remote_components remoteCfg (apply_js_runtimes jsEnv audioOpts))
    else
      .error "NameError: name audio_opts is not defined"
  else
    .ok (apply_remote_components remoteCfg (apply_js_runtimes jsEnv
      { baseYdlOpts with
          format := some (youtube_format youtubeTargetHeight) }))

/-- The option dict of the dead Instagram branch (source lines 93–94). -/
def instagramBranchOpts (jsEnv : String) (remoteCfg : Option String) :
    YdlOpts :=
  apply_remote_components remoteCfg (apply_js_runtimes jsEnv
    { baseYdlOpts with format := some "bv*+ba/b" })

/-- The option dict of the dead Twitter branch (source lines 96–101). -/
def twitterBranchOpts (jsEnv : String) (remoteCfg : Option String) :
    YdlOpts :=
  apply_remote_components remoteCfg (apply_js_runtimes jsEnv
    { baseYdlOpts with
        format := some "bv*[ext=mp4]+ba[ext=m4a]/b[ext=mp4]/b"
        twitterExtractorArgs := true })

/-! ### Option-builder lemmas -/

theorem apply_js_runtimes_preserves (jsEnv : String) (o : YdlOpts) :
    (apply_js_runtimes jsEnv o).format = o.format ∧
    (apply_js_runtimes jsEnv o).postprocessors = o.postprocessors ∧
    (apply_js_runtimes jsEnv o).twitterExtractorArgs
      = o.twitterExtractorArgs := by
  unfold apply_js_runtimes
  cases parseJsRuntimes jsEnv <;> exact ⟨rfl, rfl, rfl⟩

theorem apply_remote_components_preserves (remoteCfg : Option String)
    (o : YdlOpts) :
    (apply_remote_components remoteCfg o).format = o.format ∧
    (apply_remote_components remoteCfg o).postprocessors = o.postprocessors ∧
    (apply_remote_components remoteCfg o).twitterExtractorArgs
      = o.twitterExtractorArgs := by
  unfold apply_remote_components
  cases remoteCfg <;> exact ⟨rfl, rfl, rfl⟩

theorem strStarts_of_append (p a b : List Char)
    (h : strStarts p a = true) : strStarts p (a ++ b) = true := by
  induction p generalizing a with
  | nil => rfl
  | cons c cs ih =>
      cases a with
      | nil => exact absurd h (by simp [strStarts])
      | cons d ds =>
          simp only [strStarts, List.cons_append, Bool.and_eq_true] at h ⊢
          exact ⟨h.1, ih ds h.2⟩

/-- Every tier of the height-constrained selector starts with
`bv*[height=`, so the selector can never coincide with the dead-branch
selectors. -/
theorem youtube_format_starts (h : Nat) (h0 : ¬h = 0) :
    strStarts "bv*[h".toList (youtube_format (some h)).toList = true := by
  simp only [youtube_format, if_neg h0]
  exact strStarts_of_append _ "bv*[height=".toList _ (by decide)

theorem youtube_format_ne_instagram (ht : Option Nat) :
    youtube_format ht ≠ "bv*+ba/b" := by
  cases ht with
  | none => decide
  | some h =>
      by_cases h0 : h = 0
      · subst h0; decide
      · intro heq
        have hstart := youtube_format_starts h h0
        rw [heq] at hstart
        exact absurd hstart (by decide)

theorem youtube_format_ne_twitter (ht : Option Nat) :
    youtube_format ht ≠ "bv*[ext=mp4]+ba[ext=m4a]/b[ext=mp4]/b" := by
  cases ht with
  | none => decide
  | some h =>
      by_cases h0 : h = 0
      · subst h0; decide
      · intro heq
        have hstart := youtube_format_starts h h0
        rw [heq] at hstart
        exact absurd hstart (by decide)

/-! ### Claim C6 -/

/-- C6 (the code at the claim's input): `_youtube_format` does build
exactly the descending-specificity chain the claim describes, but
`get_ydl_opts` never returns it for a YouTube video request: because the
`return ...(audio_opts)` line sits outside the `audio_only` guard, a
YouTube URL with `youtube_audio_only=False` evaluates the unbound local
`audio_opts` and raises a `NameError` instead of returning options. -/
theorem c6_youtube_video_path_raises :
    youtube_format (some 720)
      = "bv*[height=720][vcodec^=avc1][ext=mp4]+ba[acodec^=mp4a]/bv*[height=720][ext=mp4]+ba/bv*[height=720]+ba/b[height=720]/b"
    ∧ ∀ (jsEnv : String) (remoteCfg : Option String),
        get_ydl_opts jsEnv remoteCfg "https://youtu.be/abc123" (some 720)
            false
          = .error "NameError: name audio_opts is not defined" := by
  constructor
  · decide
  · intro jsEnv remoteCfg
    have hc : reSearchLits ["youtube.com", "youtu.be"]
        "https://youtu.be/abc123" = true := by decide
    simp [get_ydl_opts, hc]

/-! ### Claim C10 -/

/-- C10: every URL that does not match the YouTube pattern takes the
unconditional function-level return: the base options plus the YouTube
tiered format selector, identical for all such URLs; and no input at all
can reach the Instagram- or Twitter-specific option dicts that follow
that return. -/
theorem c10_non_youtube_uniform (jsEnv : String) (remoteCfg : Option String)
    (url : String) (ht : Option Nat)
    (hyt : reSearchLits ["youtube.com", "youtu.be"] url = false) :
    get_ydl_opts jsEnv remoteCfg url ht false
      = .ok (apply_remote_components remoteCfg (apply_js_runtimes jsEnv
          { baseYdlOpts with format := some (youtube_format ht) })) ∧
    (∀ url2, reSearchLits ["youtube.com", "youtu.be"] url2 = false →
      get_ydl_opts jsEnv remoteCfg url2 ht false
        = get_ydl_opts jsEnv remoteCfg url ht false) ∧
    (∀ (u : String) (ht2 : Option Nat) (ao : Bool),
      get_ydl_opts jsEnv remoteCfg u ht2 ao
          ≠ .ok (instagramBranchOpts jsEnv remoteCfg) ∧
      get_ydl_opts jsEnv remoteCfg u ht2 ao
          ≠ .ok (twitterBranchOpts jsEnv remoteCfg)) := by
  refine ⟨by simp [get_ydl_opts, hyt], fun url2 h2 => by
    simp [get_ydl_opts, hyt, h2], fun u ht2 ao => ?_⟩
  unfold get_ydl_opts
  by_cases hu : reSearchLits ["youtube.com", "youtu.be"] u = true
  · rw [if_pos hu]
    cases ao with
    | false => exact ⟨by simp, by simp⟩
    | true =>
        constructor
        · intro heq
          rw [if_pos rfl] at heq
          have hopts := Except.ok.inj heq
          have hpp := congrArg YdlOpts.postprocessors hopts
          unfold instagramBranchOpts at hpp
          rw [(apply_remote_components_preserves _ _).2.1,
            (apply_js_runtimes_preserves _ _).2.1,
            (apply_remote_components_preserves _ _).2.1,
            (apply_js_runtimes_preserves _ _).2.1] at hpp
          exact absurd hpp (by decide)
        · intro heq
          rw [if_pos rfl] at heq
          have hopts := Except.ok.inj heq
          have hpp := congrArg YdlOpts.postprocessors hopts
          unfold twitterBranchOpts at hpp
          rw [(apply_remote_components_preserves _ _).2.1,
            (apply_js_runtimes_preserves _ _).2.1,
            (apply_remote_components_preserves _ _).2.1,
            (apply_js_runtimes_preserves _ _).2.1] at hpp
          exact absurd hpp (by decide)
  · rw [if_neg hu]
    constructor
    · intro heq
      have hopts := Except.ok.inj heq
      have hfmt := congrArg YdlOpts.format hopts
      unfold instagramBranchOpts at hfmt
      rw [(apply_remote_components_preserves _ _).1,
        (apply_js_runtimes_preserves _ _).1,
        (apply_remote_components_preserves _ _).1,
        (apply_js_runtimes_preserves _ _).1] at hfmt
      exact youtube_format_ne_instagram ht2 (Option.some.inj hfmt)
    · intro heq
      have hopts := Except.ok.inj heq
      have hta := congrArg YdlOpts.twitterExtractorArgs hopts
      unfold twitterBranchOpts at hta
      rw [(apply_remote_components_preserves _ _).2.2,
        (apply_js_runtimes_preserves _ _).2.2,
        (apply_remote_components_preserves _ _).2.2,
        (apply_js_runtimes_preserves _ _).2.2] at hta
      simp [baseYdlOpts] at hta

/-- C10 (witness): a non-YouTube URL with no environment set receives the
base options with the height-free YouTube tiered chain. -/
theorem c10_non_youtube_uniform_witness :
    get_ydl_opts "" none "https://example.com" none false
      = .ok (apply_remote_components none (apply_js_runtimes ""
          { baseYdlOpts with format := some (youtube_format none) })) :=
  (c10_non_youtube_uniform "" none "https://example.com" none (by decide)).1

/-! ## Media merge engine (`services/instagram.py`, lines 119–251)

`_merge_all_media` converts each input item into an mp4 segment inside a
fresh temporary directory `downloads/temp_<t>`, concatenates the segments
into `downloads/merged_<t>.mp4`, and removes the temporary directory in a
`finally` block (`_cleanup_temp_directory`), whatever the outcome.

The filesystem is modelled as the list of existing files (path, size) and
the list of existing directories.  `_safe_path` is the identity on
non-Windows absolute paths and is dropped.  The ffmpeg invocations are
the transcoder capability port: each per-item conversion is an oracle
`segProc i` and the final concatenation an oracle `concatProc`, each
describing the observable effect of the subprocess — it raised, or it
completed with a return code, possibly having created its target file
(with some size).  The two ffmpeg argument lists (loop-image-for-3s
versus stream-copy) differ only inside the port, not in the filesystem
effect, and the `concat_list.txt` write is a plain file creation whose
possible `IOError` is the `writeOk` flag. -/

def DOWNLOAD_DIR : String := "downloads"

structure FS where
  files : List (String × Nat)
  dirs : List String
deriving DecidableEq

def fsHasFile (p : String) (files : List (String × Nat)) : Bool :=
  files.any (fun f => f.1 == p)

/-- `os.path.exists` for files. -/
def fsExists (p : String) (fs : FS) : Bool := fsHasFile p fs.files

def fsSizeOf (p : String) (files : List (String × Nat)) : Nat :=
  match files.find? (fun f => f.1 == p) with
  | some f => f.2
  | none => 0

/-- `os.path.getsize`. -/
def fsSize (p : String) (fs : FS) : Nat := fsSizeOf p fs.files

/-- Creating (or truncating) a file at `p` with size `sz`. -/
def setFile (p : String) (sz : Nat) :
    List (String × Nat) → List (String × Nat)
  | [] => [(p, sz)]
  | (q, s) :: rest =>
      if q = p then (p, sz) :: rest else (q, s) :: setFile p sz rest

/-- The filesystem effect of a completed subprocess on its target file. -/
def applyCreate (p : String) (creates : Option Nat) (fs : FS) : FS :=
  match creates with
  | none => fs
  | some sz => { fs with files := setFile p sz fs.files }

/-- `os.remove`. -/
def removeFile (p : String) (fs : FS) : FS :=
  { fs with files := fs.files.filter (fun f => f.1 != p) }

/-- `os.makedirs(path, exist_ok=True)` (`_ensure_directory_exists`). -/
def ensureDir (d : String) (fs : FS) : FS :=
  if fs.dirs.contains d then fs else { fs with dirs := d :: fs.dirs }

/-- Is `p` a path inside directory `d`? -/
def isUnder (d p : String) : Bool := strStarts (d ++ "/").toList p.toList

/-- `_cleanup_temp_directory`: if the directory exists, `os.walk` removes
every file and subdirectory below it and `os.rmdir` removes the directory
itself (removals are modelled as succeeding). -/
def cleanup_temp_directory (tempDir : String) (fs : FS) : FS :=
  if fs.dirs.contains tempDir then
    { files := fs.files.filter (fun f => !(isUnder tempDir f.1)),
      dirs := fs.dirs.filter (fun d => !(d == tempDir || isUnder tempDir d)) }
  else fs

/-- Observable behaviour of one external subprocess invocation. -/
inductive ProcOutcome where
  | raises
  | completes (returncode : Int) (creates : Option Nat)
deriving DecidableEq

/-- The characters after the last occurrence of `sep`, if any. -/
def afterLast (sep : Char) : List Char → Option (List Char)
  | [] => none
  | c :: cs =>
      match afterLast sep cs with
      | some r => some r
      | none => if c = sep then some cs else none

/-- `os.path.splitext(p)[1].lower()`: the (lower-cased) extension of the
basename, leading dots of the basename not counting as separators. -/
def extOf (p : String) : String :=
  let base := (afterLast '/' p.toList).getD p.toList
  let lead := base.takeWhile (fun c => c == '.')
  match afterLast '.' (base.drop lead.length) with
  | some r => lowerStr (String.mk ('.' :: r))
  | none => ""

def imageExts : List String := [".jpg", ".jpeg", ".png", ".webp"]
def videoExts : List String := [".mp4", ".mov"]

def tempDirPath (t : Nat) : String :=
  DOWNLOAD_DIR ++ ("/temp_" ++ toString t)

def mergedPath (t : Nat) : String :=
  DOWNLOAD_DIR ++ ("/merged_" ++ (toString t ++ ".mp4"))

def segmentPath (tempDir : String) (i : Nat) : String :=
  tempDir ++ ("/segment_" ++ (toString i ++ ".mp4"))

def concatListPath (tempDir : String) : String :=
  tempDir ++ "/concat_list.txt"

/-- Size of the written concat manifest: one line per segment,
`file`-quote-path-quote-newline (8 bytes around each path). -/
def concatListSize (segs : List String) : Nat :=
  segs.foldl (fun acc seg => acc + seg.length + 8) 0

/-- The per-item segment loop of `_merge_all_media` (lines 132–173):
missing source file → skip; unrecognized extension → skip; subprocess
raised → skip (logged); return code nonzero or segment file absent →
skip; otherwise the segment joins the list, in input order. -/
def mergeSegmentsLoop (segProc : Nat → ProcOutcome) (tempDir : String) :
    List String → Nat → FS → FS × List String
  | [], _, fs => (fs, [])
  | file :: rest, i, fs =>
    if !(fsExists file fs) then mergeSegmentsLoop segProc tempDir rest (i + 1) fs
    else
      let ext := extOf file
      if imageExts.contains ext || videoExts.contains ext then
        match segProc i with
        | .raises => mergeSegmentsLoop segProc tempDir rest (i + 1) fs
        | .completes rc creates =>
            let fs1 := applyCreate (segmentPath tempDir i) creates fs
            if rc == 0 && fsExists (segmentPath tempDir i) fs1 then
              let r := mergeSegmentsLoop segProc tempDir rest (i + 1) fs1
              (r.1, segmentPath tempDir i :: r.2)
            else mergeSegmentsLoop segProc tempDir rest (i + 1) fs1
      else mergeSegmentsLoop segProc tempDir rest (i + 1) fs

structure MergeOutcome where
  result : Option String
  fs : FS
  segments : List String
deriving DecidableEq

/-- `_merge_all_media`.  Every exit path of the `try` runs through the
`finally` cleanup of the temporary directory; the early `return None` for
an empty input list precedes the directory creation.  `t` is the
`int(time.time())` stamp naming the temporary directory and the output
file. -/
def merge_all_media (segProc : Nat → ProcOutcome) (writeOk : Bool)
    (concatProc : ProcOutcome) (t : Nat) (mediaFiles : List String)
    (fs0 : FS) : MergeOutcome :=
  if mediaFiles.isEmpty then ⟨none, fs0, []⟩
  else
    let tempDir := tempDirPath t
    let fs1 := ensureDir tempDir fs0
    let outputFile := mergedPath t
    let r := mergeSegmentsLoop segProc tempDir mediaFiles 0 fs1
    let segments := r.2
    let res :=
      if segments.isEmpty then ((none : Option String), r.1)
      else if !writeOk then (none, r.1)
      else
        let fs3 := applyCreate (concatListPath tempDir)
          (some (concatListSize segments)) r.1
        let fs4 := ensureDir DOWNLOAD_DIR fs3
        match concatProc with
        | .raises => (none, fs4)
        | .completes rc creates =>
            let fs5 := applyCreate outputFile creates fs4
            if rc != 0 || !(fsExists outputFile fs5)
                || fsSize outputFile fs5 == 0 then
              (none,
               if fsExists outputFile fs5 then removeFile outputFile fs5
               else fs5)
            else (some outputFile, fs5)
    ⟨res.1, cleanup_temp_directory tempDir res.2, segments⟩

/-! ### Filesystem lemmas -/

theorem applyCreate_dirs (p : String) (c : Option Nat) (fs : FS) :
    (applyCreate p c fs).dirs = fs.dirs := by
  cases c <;> rfl

theorem removeFile_dirs (p : String) (fs : FS) :
    (removeFile p fs).dirs = fs.dirs := rfl

theorem ensureDir_files (d : String) (fs : FS) :
    (ensureDir d fs).files = fs.files := by
  unfold ensureDir
  split <;> rfl

theorem ensureDir_contains (d : String) (fs : FS) :
    (ensureDir d fs).dirs.contains d = true := by
  unfold ensureDir
  split
  · assumption
  · simp [List.contains_cons]

theorem ensureDir_contains_of (d d1 : String) (fs : FS)
    (h : fs.dirs.contains d1 = true) :
    (ensureDir d fs).dirs.contains d1 = true := by
  unfold ensureDir
  split
  · exact h
  · rw [List.contains_cons, h]
    simp

theorem mergeSegmentsLoop_dirs (segProc : Nat → ProcOutcome)
    (tempDir : String) (files : List String) (i : Nat) (fs : FS) :
    (mergeSegmentsLoop segProc tempDir files i fs).1.dirs = fs.dirs := by
  induction files generalizing i fs with
  | nil => rfl
  | cons f rest ih =>
      simp only [mergeSegmentsLoop]
      by_cases h1 : (!fsExists f fs) = true
      · rw [if_pos h1]
        exact ih _ _
      · rw [if_neg h1]
        by_cases h2 : (imageExts.contains (extOf f)
            || videoExts.contains (extOf f)) = true
        · rw [if_pos h2]
          cases hp : segProc i with
          | raises => exact ih _ _
          | completes rc creates =>
              simp only []
              by_cases h3 : (rc == 0 && fsExists (segmentPath tempDir i)
                  (applyCreate (segmentPath tempDir i) creates fs)) = true
              · rw [if_pos h3]
                simp only []
                rw [ih]
                exact applyCreate_dirs _ _ _
              · rw [if_neg h3]
                rw [ih]
                exact applyCreate_dirs _ _ _
        · rw [if_neg h2]
          exact ih _ _

theorem contains_filter_self_false (l : List String) (a : String)
    (p : String → Bool) (hp : p a = false) :
    (l.filter p).contains a = false := by
  induction l with
  | nil => rfl
  | cons b rest ih =>
      rw [List.filter_cons]
      cases hb : p b with
      | true =>
          rw [if_pos rfl, List.contains_cons]
          cases hab : a == b with
          | true =>
              have hEq : a = b := eq_of_beq hab
              rw [← hEq, hp] at hb
              exact (Bool.false_ne_true hb).elim
          | false =>
              rw [Bool.false_or]
              exact ih
      | false =>
          simp only [Bool.false_eq_true, if_false]
          exact ih

theorem all_filter_self {α : Type} (l : List α) (p : α → Bool) :
    (l.filter p).all p = true := by
  induction l with
  | nil => rfl
  | cons b rest ih =>
      rw [List.filter_cons]
      cases hb : p b with
      | true => simp [hb, ih]
      | false => simp [ih]

/-- Whatever happens inside the `try`, the `finally` sees a filesystem in
which the temporary directory still exists, and the final state is the
cleanup of that filesystem. -/
theorem merge_all_media_fs (segProc : Nat → ProcOutcome) (writeOk : Bool)
    (concatProc : ProcOutcome) (t : Nat) (m : String) (rest : List String)
    (fs0 : FS) :
    ∃ fsEnd,
      (merge_all_media segProc writeOk concatProc t (m :: rest) fs0).fs
        = cleanup_temp_directory (tempDirPath t) fsEnd ∧
      fsEnd.dirs.contains (tempDirPath t) = true := by
  rw [merge_all_media]
  simp only [List.isEmpty_cons, Bool.false_eq_true, if_false]
  refine ⟨_, rfl, ?_⟩
  split
  · simp only [mergeSegmentsLoop_dirs]
    exact ensureDir_contains _ _
  · split
    · simp only [mergeSegmentsLoop_dirs]
      exact ensureDir_contains _ _
    · split
      · exact ensureDir_contains_of _ _ _
          (by simp only [applyCreate_dirs, mergeSegmentsLoop_dirs]
              exact ensureDir_contains _ _)
      · split
        · split
          · simp only [removeFile_dirs, applyCreate_dirs]
            exact ensureDir_contains_of _ _ _
              (by simp only [applyCreate_dirs, mergeSegmentsLoop_dirs]
                  exact ensureDir_contains _ _)
          · simp only [applyCreate_dirs]
            exact ensureDir_contains_of _ _ _
              (by simp only [applyCreate_dirs, mergeSegmentsLoop_dirs]
                  exact ensureDir_contains _ _)
        · simp only [applyCreate_dirs]
          exact ensureDir_contains_of _ _ _
            (by simp only [applyCreate_dirs, mergeSegmentsLoop_dirs]
                exact ensureDir_contains _ _)

theorem cleanup_removes (tempDir : String) (fs : FS)
    (h : fs.dirs.contains tempDir = true) :
    (cleanup_temp_directory tempDir fs).dirs.contains tempDir = false ∧
    (cleanup_temp_directory tempDir fs).files.all
      (fun f => !(isUnder tempDir f.1)) = true := by
  unfold cleanup_temp_directory
  rw [if_pos h]
  constructor
  · exact contains_filter_self_false _ _ _ (by simp)
  · exact all_filter_self _ _

/-! ### Claim C7 -/

/-- C7: for every (non-empty) input list and every behaviour of the
conversion and concatenation subprocesses — success, failure exit codes,
or raised exceptions, and whether or not the manifest write succeeds —
after `merge` returns, the scoped temporary directory no longer exists
and no file under it (in particular no intermediate segment) remains on
disk. -/
theorem c7_merge_cleanup (segProc : Nat → ProcOutcome) (writeOk : Bool)
    (concatProc : ProcOutcome) (t : Nat) (m : String) (rest : List String)
    (fs0 : FS) :
    (merge_all_media segProc writeOk concatProc t (m :: rest) fs0).fs.dirs.contains
        (tempDirPath t) = false ∧
    (merge_all_media segProc writeOk concatProc t (m :: rest) fs0).fs.files.all
        (fun f => !(isUnder (tempDirPath t) f.1)) = true := by
  obtain ⟨fsEnd, hfs, hcont⟩ :=
    merge_all_media_fs segProc writeOk concatProc t m rest fs0
  rw [hfs]
  exact cleanup_removes _ _ hcont

/-! ### Partial-merge machinery (claim C8)

`expectedSegments` restates, from the loop's source, which items convert:
the source file exists (in the initial filesystem), its extension is a
recognized image or video, and its conversion process exits 0 having
produced the segment file.  `createsOnSuccess` is the transcoder-port
contract assumed here: a conversion that exits 0 has written its output
file. -/

def segSuccess (segProc : Nat → ProcOutcome) (i : Nat) : Bool :=
  match segProc i with
  | .completes rc (some _) => rc == 0
  | _ => false

def convOK (segProc : Nat → ProcOutcome) (files0 : List (String × Nat))
    (i : Nat) (f : String) : Bool :=
  fsHasFile f files0
    && (imageExts.contains (extOf f) || videoExts.contains (extOf f))
    && segSuccess segProc i

def expectedSegments (segProc : Nat → ProcOutcome)
    (files0 : List (String × Nat)) (tempDir : String) :
    Nat → List String → List String
  | _, [] => []
  | i, f :: rest =>
      if convOK segProc files0 i f then
        segmentPath tempDir i
          :: expectedSegments segProc files0 tempDir (i + 1) rest
      else expectedSegments segProc files0 tempDir (i + 1) rest

/-- A conversion process that exits 0 has produced its output file. -/
def createsOnSuccess : ProcOutcome → Bool
  | .completes rc none => rc != 0
  | _ => true

theorem strStarts_append_both (x y z : List Char) :
    strStarts (x ++ y) (x ++ z) = strStarts y z := by
  induction x with
  | nil => rfl
  | cons c cs ih => simp [strStarts, ih]

theorem isUnder_segmentPath (tempDir : String) (i : Nat) :
    isUnder tempDir (segmentPath tempDir i) = true := by
  unfold isUnder segmentPath
  rw [show (tempDir ++ "/").toList = tempDir.toList ++ "/".toList from rfl]
  rw [show (tempDir ++ ("/segment_" ++ (toString i ++ ".mp4"))).toList
      = tempDir.toList ++ ("/segment_" ++ (toString i ++ ".mp4")).toList
      from rfl]
  rw [strStarts_append_both]
  exact strStarts_of_append _ "/segment_".toList _ (by decide)

theorem any_eq_false_of_all_under (tempDir p : String)
    (extra : List (String × Nat))
    (hextra : extra.all (fun e => isUnder tempDir e.1) = true)
    (hp : isUnder tempDir p = false) :
    extra.any (fun f => f.1 == p) = false := by
  induction extra with
  | nil => rfl
  | cons e rest ih =>
      simp only [List.all_cons, Bool.and_eq_true] at hextra
      rw [List.any_cons]
      cases heb : e.1 == p with
      | true =>
          have he : e.1 = p := eq_of_beq heb
          rw [he] at hextra
          exact (Bool.false_ne_true (hp.symm.trans hextra.1)).elim
      | false =>
          rw [Bool.false_or]
          exact ih hextra.2

theorem fsHasFile_append_not_under (tempDir p : String)
    (base extra : List (String × Nat))
    (hextra : extra.all (fun e => isUnder tempDir e.1) = true)
    (hp : isUnder tempDir p = false) :
    fsHasFile p (base ++ extra) = fsHasFile p base := by
  unfold fsHasFile
  rw [List.any_append, any_eq_false_of_all_under tempDir p extra hextra hp,
    Bool.or_false]

theorem all_not_beq_of_not_under (tempDir p : String)
    (base : List (String × Nat))
    (hbase : base.all (fun e => !(isUnder tempDir e.1)) = true)
    (hp : isUnder tempDir p = true) :
    base.all (fun e => !(e.1 == p)) = true := by
  induction base with
  | nil => rfl
  | cons e rest ih =>
      simp only [List.all_cons, Bool.and_eq_true] at hbase ⊢
      refine ⟨?_, ih hbase.2⟩
      cases heb : e.1 == p with
      | true =>
          have he : e.1 = p := eq_of_beq heb
          rw [he, hp] at hbase
          exact absurd hbase.1 (by decide)
      | false => rfl

theorem setFile_append_right (p : String) (sz : Nat)
    (base extra : List (String × Nat))
    (hbase : base.all (fun e => !(e.1 == p)) = true) :
    setFile p sz (base ++ extra) = base ++ setFile p sz extra := by
  induction base with
  | nil => rfl
  | cons b rest ih =>
      obtain ⟨q, s⟩ := b
      simp only [List.all_cons, Bool.and_eq_true] at hbase
      simp only [List.cons_append, setFile]
      rw [if_neg]
      · exact congrArg (List.cons (q, s)) (ih hbase.2)
      · intro hq
        have h1 := hbase.1
        rw [hq] at h1
        simp at h1

theorem setFile_all_under (tempDir p : String) (sz : Nat)
    (extra : List (String × Nat)) (hp : isUnder tempDir p = true)
    (hextra : extra.all (fun e => isUnder tempDir e.1) = true) :
    (setFile p sz extra).all (fun e => isUnder tempDir e.1) = true := by
  induction extra with
  | nil => simp [setFile, hp]
  | cons e rest ih =>
      obtain ⟨q, s⟩ := e
      simp only [List.all_cons, Bool.and_eq_true] at hextra
      simp only [setFile]
      split
      · simp only [List.all_cons, Bool.and_eq_true]
        exact ⟨hp, hextra.2⟩
      · simp only [List.all_cons, Bool.and_eq_true]
        exact ⟨hextra.1, ih hextra.2⟩

theorem fsHasFile_setFile (p : String) (sz : Nat)
    (l : List (String × Nat)) :
    fsHasFile p (setFile p sz l) = true := by
  induction l with
  | nil => simp [setFile, fsHasFile]
  | cons e rest ih =>
      obtain ⟨q, s⟩ := e
      simp only [setFile]
      split
      · simp [fsHasFile]
      · simp only [fsHasFile, List.any_cons] at ih ⊢
        rw [ih, Bool.or_true]

theorem fsHasFile_append (p : String) (l1 l2 : List (String × Nat)) :
    fsHasFile p (l1 ++ l2) = (fsHasFile p l1 || fsHasFile p l2) := by
  simp [fsHasFile, List.any_append]

theorem find_setFile (p : String) (sz : Nat) (l : List (String × Nat)) :
    (setFile p sz l).find? (fun f => f.1 == p) = some (p, sz) := by
  induction l with
  | nil => simp [setFile, List.find?]
  | cons e rest ih =>
      obtain ⟨q, s⟩ := e
      simp only [setFile]
      split
      · simp [List.find?]
      · next hq =>
          rw [List.find?_cons_of_neg _ (by simpa using hq)]
          exact ih

/-- The segment loop, characterized: on a filesystem that splits into an
untouched part `base` (nothing under the temporary directory) and scratch
`extra` (everything under it), the loop only grows the scratch part, and
the produced segment list is exactly `expectedSegments` — the
successfully converted items in input order, each failure skipping only
its own item. -/
theorem mergeSegmentsLoop_spec (segProc : Nat → ProcOutcome)
    (tempDir : String) (hc : ∀ j, createsOnSuccess (segProc j) = true)
    (files : List String) :
    ∀ (i : Nat) (base extra : List (String × Nat)) (d : List String),
      files.all (fun f => !(isUnder tempDir f)) = true →
      base.all (fun e => !(isUnder tempDir e.1)) = true →
      extra.all (fun e => isUnder tempDir e.1) = true →
      ∃ extra2, extra2.all (fun e => isUnder tempDir e.1) = true ∧
        mergeSegmentsLoop segProc tempDir files i ⟨base ++ extra, d⟩
          = (⟨base ++ extra2, d⟩,
             expectedSegments segProc base tempDir i files) := by
  induction files with
  | nil =>
      intro i base extra d _ _ hextra
      exact ⟨extra, hextra, rfl⟩
  | cons f rest ih =>
      intro i base extra d hfiles hbase hextra
      simp only [List.all_cons, Bool.and_eq_true] at hfiles
      have hfU : isUnder tempDir f = false := by
        have h1 := hfiles.1
        cases hu : isUnder tempDir f
        · rfl
        · rw [hu] at h1
          exact absurd h1 (by decide)
      have hex : fsExists f ⟨base ++ extra, d⟩ = fsHasFile f base :=
        fsHasFile_append_not_under tempDir f base extra hextra hfU
      cases hbf : fsHasFile f base with
      | false =>
          obtain ⟨extra2, hex2, heq⟩ :=
            ih (i + 1) base extra d hfiles.2 hbase hextra
          refine ⟨extra2, hex2, ?_⟩
          have hconv : convOK segProc base i f = false := by
            simp only [convOK, hbf, Bool.false_and]
          simp only [mergeSegmentsLoop, expectedSegments, hex, hbf,
            Bool.not_false, eq_self_iff_true, if_true, hconv,
            Bool.false_eq_true, if_false]
          exact heq
      | true =>
          cases hext : (imageExts.contains (extOf f)
              || videoExts.contains (extOf f)) with
          | false =>
              obtain ⟨extra2, hex2, heq⟩ :=
                ih (i + 1) base extra d hfiles.2 hbase hextra
              refine ⟨extra2, hex2, ?_⟩
              have hconv : convOK segProc base i f = false := by
                simp only [convOK, hext, Bool.and_false, Bool.false_and]
              simp only [mergeSegmentsLoop, expectedSegments, hex, hbf,
                Bool.not_true, Bool.false_eq_true, if_false, hext, hconv]
              exact heq
          | true =>
              cases hp : segProc i with
              | raises =>
                  obtain ⟨extra2, hex2, heq⟩ :=
                    ih (i + 1) base extra d hfiles.2 hbase hextra
                  refine ⟨extra2, hex2, ?_⟩
                  have hconv : convOK segProc base i f = false := by
                    simp only [convOK, segSuccess, hp, Bool.and_false]
                  simp only [mergeSegmentsLoop, expectedSegments, hex, hbf,
                    Bool.not_true, Bool.false_eq_true, if_false, hext,
                    eq_self_iff_true, if_true, hp, hconv]
                  exact heq
              | completes rc creates =>
                  cases creates with
                  | none =>
                      have h1 := hc i
                      rw [hp] at h1
                      simp only [createsOnSuccess, bne] at h1
                      have hrc : (rc == 0) = false := by
                        cases h0 : rc == 0
                        · rfl
                        · rw [h0] at h1
                          exact absurd h1 (by decide)
                      obtain ⟨extra2, hex2, heq⟩ :=
                        ih (i + 1) base extra d hfiles.2 hbase hextra
                      refine ⟨extra2, hex2, ?_⟩
                      have hconv : convOK segProc base i f = false := by
                        simp only [convOK, segSuccess, hp, Bool.and_false]
                      simp only [mergeSegmentsLoop, expectedSegments, hex,
                        hbf, Bool.not_true, Bool.false_eq_true, if_false,
                        hext, eq_self_iff_true, if_true, hp, applyCreate,
                        hrc, Bool.false_and, hconv]
                      exact heq
                  | some sz =>
                      have hsegU : isUnder tempDir (segmentPath tempDir i)
                          = true := isUnder_segmentPath tempDir i
                      have hbaseNot : base.all
                          (fun e => !(e.1 == segmentPath tempDir i)) = true :=
                        all_not_beq_of_not_under tempDir _ base hbase hsegU
                      have hsf : setFile (segmentPath tempDir i) sz
                            (base ++ extra)
                          = base ++ setFile (segmentPath tempDir i) sz
                              extra :=
                        setFile_append_right _ sz base extra hbaseNot
                      have hextra2 : (setFile (segmentPath tempDir i) sz
                            extra).all (fun e => isUnder tempDir e.1)
                          = true :=
                        setFile_all_under tempDir _ sz extra hsegU hextra
                      have hexseg : fsExists (segmentPath tempDir i)
                          (⟨base ++ setFile (segmentPath tempDir i) sz extra,
                            d⟩ : FS) = true := by
                        unfold fsExists
                        rw [fsHasFile_append, fsHasFile_setFile,
                          Bool.or_true]
                      cases hrc : rc == 0 with
                      | true =>
                          obtain ⟨extra3, hex3, heq⟩ := ih (i + 1) base
                            (setFile (segmentPath tempDir i) sz extra) d
                            hfiles.2 hbase hextra2
                          refine ⟨extra3, hex3, ?_⟩
                          have hconv : convOK segProc base i f = true := by
                            simp only [convOK, hbf, hext, segSuccess, hp,
                              hrc, Bool.and_true, Bool.true_and]
                          simp only [mergeSegmentsLoop, expectedSegments,
                            hex, hbf, Bool.not_true, Bool.false_eq_true,
                            if_false, hext, eq_self_iff_true, if_true, hp,
                            applyCreate, hsf, hexseg, hrc, Bool.and_true,
                            hconv]
                          rw [heq]
                      | false =>
                          obtain ⟨extra3, hex3, heq⟩ := ih (i + 1) base
                            (setFile (segmentPath tempDir i) sz extra) d
                            hfiles.2 hbase hextra2
                          refine ⟨extra3, hex3, ?_⟩
                          have hconv : convOK segProc base i f = false := by
                            simp only [convOK, segSuccess, hp, hrc,
                              Bool.and_false]
                          simp only [mergeSegmentsLoop, expectedSegments,
                            hex, hbf, Bool.not_true, Bool.false_eq_true,
                            if_false, hext, eq_self_iff_true, if_true, hp,
                            applyCreate, hsf, hexseg, hrc, Bool.false_and,
                            hconv]
                          exact heq

/-! ### Claim C8 -/

/-- C8: with the manifest write succeeding and the concatenation process
exiting 0 with a non-empty output (the per-item conversions failing or
succeeding arbitrarily), `merge` produces exactly the segments of the
successfully converted items, in input order — a per-item failure skips
only that item — and returns a failure precisely when zero segments were
produced, otherwise the merged output path.  The filesystem hypotheses
say the input items and the pre-existing files do not live inside the
fresh scratch directory. -/
theorem c8_partial_merge (segProc : Nat → ProcOutcome) (t : Nat)
    (mediaFiles : List String) (fs0 : FS) (k : Nat)
    (hmedia : mediaFiles.all (fun f => !(isUnder (tempDirPath t) f)) = true)
    (hfs : fs0.files.all (fun e => !(isUnder (tempDirPath t) e.1)) = true)
    (hc : ∀ j, createsOnSuccess (segProc j) = true) :
    (merge_all_media segProc true (.completes 0 (some (k + 1))) t
        mediaFiles fs0).segments
      = expectedSegments segProc fs0.files (tempDirPath t) 0 mediaFiles ∧
    (merge_all_media segProc true (.completes 0 (some (k + 1))) t
        mediaFiles fs0).result
      = (if (expectedSegments segProc fs0.files (tempDirPath t) 0
            mediaFiles).isEmpty
         then none else some (mergedPath t)) := by
  cases mediaFiles with
  | nil => exact ⟨rfl, rfl⟩
  | cons m rest =>
      have hfs1 : ensureDir (tempDirPath t) fs0
          = (⟨fs0.files ++ [],
              (ensureDir (tempDirPath t) fs0).dirs⟩ : FS) := by
        rw [List.append_nil, ← ensureDir_files (tempDirPath t) fs0]
      obtain ⟨extra2, hex2, hloop⟩ := mergeSegmentsLoop_spec segProc
        (tempDirPath t) hc (m :: rest) 0 fs0.files []
        (ensureDir (tempDirPath t) fs0).dirs hmedia hfs rfl
      rw [← hfs1] at hloop
      constructor
      · simp only [merge_all_media, List.isEmpty_cons, Bool.false_eq_true,
          if_false, hloop]
      · simp only [merge_all_media, List.isEmpty_cons, Bool.false_eq_true,
          if_false, hloop]
        cases hse : (expectedSegments segProc fs0.files (tempDirPath t) 0
            (m :: rest)).isEmpty with
        | true => simp only [hse, eq_self_iff_true, if_true]
        | false =>
            have hk : ((k + 1 : Nat) == 0) = false := by simp
            have hz : ((0 : Int) != 0) = false := by decide
            simp only [hse, Bool.false_eq_true, if_false, Bool.not_true,
              applyCreate, fsExists, fsHasFile_setFile, hz, hk,
              Bool.not_true, Bool.or_false, Bool.false_or, fsSize,
              fsSizeOf, find_setFile]

/-- C8 (witness): three items of which the middle one fails segment
conversion (its ffmpeg invocation raises) — the merge succeeds, built
from the two remaining segments in input order. -/
theorem c8_partial_merge_witness :
    (merge_all_media
        (fun i => if i == 1 then ProcOutcome.raises
          else ProcOutcome.completes 0 (some 5))
        true (ProcOutcome.completes 0 (some 9)) 7
        ["downloads/a.jpg", "downloads/b.jpg", "downloads/c.mp4"]
        ⟨[("downloads/a.jpg", 1), ("downloads/b.jpg", 1),
          ("downloads/c.mp4", 1)], ["downloads"]⟩).segments
      = ["downloads/temp_7/segment_0.mp4",
         "downloads/temp_7/segment_2.mp4"] ∧
    (merge_all_media
        (fun i => if i == 1 then ProcOutcome.raises
          else ProcOutcome.completes 0 (some 5))
        true (ProcOutcome.completes 0 (some 9)) 7
        ["downloads/a.jpg", "downloads/b.jpg", "downloads/c.mp4"]
        ⟨[("downloads/a.jpg", 1), ("downloads/b.jpg", 1),
          ("downloads/c.mp4", 1)], ["downloads"]⟩).result
      = some "downloads/merged_7.mp4" := by
  have h := c8_partial_merge
    (fun i => if i == 1 then ProcOutcome.raises
      else ProcOutcome.completes 0 (some 5)) 7
    ["downloads/a.jpg", "downloads/b.jpg", "downloads/c.mp4"]
    ⟨[("downloads/a.jpg", 1), ("downloads/b.jpg", 1),
      ("downloads/c.mp4", 1)], ["downloads"]⟩ 8
    (by decide) (by decide)
    (fun j => by
      cases hj : j == 1 with
      | true => simp [hj, createsOnSuccess]
      | false => simp [hj, createsOnSuccess])
  exact ⟨h.1.trans (by decide), h.2.trans (by decide)⟩
